import Mathlib

/-!
Verification of the StarRocks storage-scan subsystem (vectorized OlapScanNode,
zone-map index writer, global-dictionary code iterator) against its
natural-language specification.

Shallow embedding notes:
* `Stack` is translated from the inline template class in
  `be/src/exec/vectorized/olap_scan_node.h` (a `std::vector` used as a LIFO
  stack; `pop` requires a non-empty stack in the source — the embedding
  returns an `Option` there).
* The bodies of the OlapScanNode scheduling methods (`_update_status`,
  `_submit_scanner`, `get_next`, `set_scan_ranges`, chunk release) are not
  part of the provided sources; those operations are modelled from the spec,
  over the state fields declared in the header.
* The zone-map index writer and the global-dict code iterator are translated
  from `zone_map_index.cpp` and `dictcode_column_iterator.cpp`.
-/

namespace Starrocks

/-- Chunk buffers, scanners and scan ranges are identified by opaque ids. -/
abbrev Chunk := Nat

abbrev Scanner := Nat

abbrev ScanRange := Nat

/-- Result status of an operation, mirroring `starrocks::Status`:
either OK or an error carrying a message. -/
inductive Status where
  | ok : Status
  | error (msg : String) : Status
deriving DecidableEq

/-- Test whether a status is OK, mirroring `Status::ok()`. -/
def Status.isOk : Status → Bool
  | .ok => true
  | .error _ => false

/-- The LIFO stack used for `_chunk_pool` and `_pending_scanners`,
translated from `OlapScanNode::Stack<T>`: a `std::vector` where `push`
appends at the back and `pop` removes from the back. -/
structure Stack (T : Type) where
  items : List T
deriving DecidableEq

/-- Translation of `Stack<T>::push`: append at the back of the vector. -/
def Stack.push {T : Type} (s : Stack T) (v : T) : Stack T :=
  ⟨s.items ++ [v]⟩

/-- Translation of `Stack<T>::pop`: remove and return the back element.
The source DCHECKs non-emptiness; the embedding returns `none` there. -/
def Stack.pop {T : Type} (s : Stack T) : Option (T × Stack T) :=
  match s.items.getLast? with
  | none => none
  | some v => some (v, ⟨s.items.dropLast⟩)

/-- Translation of `Stack<T>::size`. -/
def Stack.size {T : Type} (s : Stack T) : Nat :=
  s.items.length

/-- Translation of `Stack<T>::empty`. -/
def Stack.isEmpty {T : Type} (s : Stack T) : Bool :=
  s.items.isEmpty

/-- Translation of `Stack<T>::clear`. -/
def Stack.clear {T : Type} (_ : Stack T) : Stack T :=
  ⟨[]⟩

/-- Translation of `Stack<T>::reverse`. -/
def Stack.reverse {T : Type} (s : Stack T) : Stack T :=
  ⟨s.items.reverse⟩

/-! Zone-map index writer, translated from
`be/src/storage/rowset/zone_map_index.cpp`. Column values are modelled as
integers; the field's type range (`set_to_min` / `set_to_max`) is a pair of
bounds. -/

/-- Range of the column's field type: `set_to_min` writes `fmin`,
`set_to_max` writes `fmax`. -/
structure FieldBounds where
  fmin : Int
  fmax : Int
deriving DecidableEq

/-- Translation of `struct ZoneMap`: min/max values of the zone plus the
null-presence flags. -/
structure ZoneMap where
  min_value : Int
  max_value : Int
  has_null : Bool
  has_not_null : Bool
deriving DecidableEq

/-- Translation of `ZoneMapIndexWriterImpl::_reset_zone_map`: set the min
slot to the type's maximum, the max slot to the type's minimum, and clear
both flags. -/
def resetZoneMap (fb : FieldBounds) : ZoneMap :=
  { min_value := fb.fmax, max_value := fb.fmin, has_null := false, has_not_null := false }

/-- Value of `std::minmax_element`'s first component on a non-empty batch
`v :: vs`: the smallest value. -/
def batchMin (v : Int) (vs : List Int) : Int :=
  vs.foldl min v

/-- Value of `std::minmax_element`'s second component on a non-empty batch
`v :: vs`: the largest value. -/
def batchMax (v : Int) (vs : List Int) : Int :=
  vs.foldl max v

/-- Translation of `ZoneMapIndexWriterImpl::add_values`: on a non-empty
batch, set `has_not_null`, and lower `min_value` / raise `max_value` to the
batch extremes when they improve on the stored ones; an empty batch is a
no-op. -/
def addValuesImpl (zm : ZoneMap) (vals : List Int) : ZoneMap :=
  match vals with
  | [] => zm
  | v :: vs =>
    { zm with
      has_not_null := true
      min_value := if batchMin v vs < zm.min_value then batchMin v vs else zm.min_value
      max_value := if batchMax v vs > zm.max_value then batchMax v vs else zm.max_value }

/-- Translation of `ZoneMapIndexWriterImpl::add_nulls`:
`_page_zone_map.has_null |= count > 0`. -/
def addNullsImpl (zm : ZoneMap) (count : Nat) : ZoneMap :=
  { zm with has_null := zm.has_null || decide (count > 0) }

/-- State of `ZoneMapIndexWriterImpl`: the field bounds, the per-page and
per-segment zone maps, and the list of flushed page zone maps
(the serialized `_values`, kept unserialized here). -/
structure ZoneMapWriter where
  fld : FieldBounds
  page_zone_map : ZoneMap
  segment_zone_map : ZoneMap
  values : List ZoneMap
deriving DecidableEq

/-- Translation of the `ZoneMapIndexWriterImpl` constructor: both zone maps
start reset. -/
def initZoneMapWriter (fb : FieldBounds) : ZoneMapWriter :=
  { fld := fb
    page_zone_map := resetZoneMap fb
    segment_zone_map := resetZoneMap fb
    values := [] }

/-- Translation of `ZoneMapIndexWriterImpl::flush`: fold the page zone map
into the segment zone map (smaller min, larger max, OR-ed flags), record the
page zone map, and reset the page zone map.  Protobuf serialization is
abstracted away (its only failure mode is out of scope here). -/
def flushImpl (w : ZoneMapWriter) : ZoneMapWriter :=
  let seg := w.segment_zone_map
  let page := w.page_zone_map
  let seg2 : ZoneMap :=
    { min_value := if seg.min_value > page.min_value then page.min_value else seg.min_value
      max_value := if seg.max_value < page.max_value then page.max_value else seg.max_value
      has_null := seg.has_null || page.has_null
      has_not_null := seg.has_not_null || page.has_not_null }
  { w with
    segment_zone_map := seg2
    values := w.values ++ [page]
    page_zone_map := resetZoneMap w.fld }

/-- An operation on the zone-map writer. -/
inductive ZMOp where
  | addValues (vals : List Int)
  | addNulls (count : Nat)
  | flush
deriving DecidableEq

/-- Apply one writer operation. -/
def applyZMOp (w : ZoneMapWriter) (op : ZMOp) : ZoneMapWriter :=
  match op with
  | .addValues vals => { w with page_zone_map := addValuesImpl w.page_zone_map vals }
  | .addNulls count => { w with page_zone_map := addNullsImpl w.page_zone_map count }
  | .flush => flushImpl w

/-- Run a sequence of writer operations from a fresh writer. -/
def runZMOps (fb : FieldBounds) (ops : List ZMOp) : ZoneMapWriter :=
  ops.foldl applyZMOp (initZoneMapWriter fb)

/-- Ghost accumulator: first component is the values added to the current
(unflushed) page, second is the values belonging to already-flushed pages. -/
def collectStep (acc : List Int × List Int) (op : ZMOp) : List Int × List Int :=
  match op with
  | .addValues vals => (acc.1 ++ vals, acc.2)
  | .addNulls _ => acc
  | .flush => ([], acc.2 ++ acc.1)

/-- Values flushed into the segment zone map by a sequence of operations. -/
def flushedVals (ops : List ZMOp) : List Int :=
  (ops.foldl collectStep ([], [])).2

/-- Values added to the current page since its last reset. -/
def pageVals (ops : List ZMOp) : List Int :=
  (ops.foldl collectStep ([], [])).1

/-- Invariant tying a writer state to the ghost accumulator: every value of
the current page lies within the page zone map's bounds, and every flushed
value lies within the segment zone map's bounds. -/
def ZMInv (w : ZoneMapWriter) (acc : List Int × List Int) : Prop :=
  (∀ x ∈ acc.1, w.page_zone_map.min_value ≤ x ∧ x ≤ w.page_zone_map.max_value) ∧
  (∀ x ∈ acc.2, w.segment_zone_map.min_value ≤ x ∧ x ≤ w.segment_zone_map.max_value)

/-! Global-dictionary code iterator, translated from
`be/src/storage/rowset/dictcode_column_iterator.cpp`. The decoded local
dictionary is the list of strings for codes `0 .. dict_size - 1`; the global
dictionary is an association list from strings to global codes. -/

/-- State of `GlobalDictCodeColumnIterator` relevant to building the
local-to-global code mapping: the holder vector, the global dictionary, and
the decoded local dictionary values (`decode_dict_codes` output for codes
`0 .. dict_size - 1`). -/
structure GlobalDictCodeIter where
  local_to_global_holder : List Int
  global_dict : List (String × Int)
  dict_values : List String
deriving DecidableEq

/-- Translation of the code-mapping loop in `_build_to_global_dict`: walk
the decoded local dictionary values; a value absent from the global
dictionary aborts with `InternalError` when it has non-zero length and is
skipped when empty; a found value writes its global code at slot `i + 1` of
the holder (`_local_to_global` points one past the start of the holder and
`dict_codes[i] = i`). -/
def buildLoop (gdict : List (String × Int)) :
    List String → Nat → List Int → Status × List Int
  | [], _, holder => (Status.ok, holder)
  | s :: rest, i, holder =>
    match List.lookup s gdict with
    | none =>
      if s.length > 0 then (Status.error "not found slice in global dict", holder)
      else buildLoop gdict rest (i + 1) holder
    | some g => buildLoop gdict rest (i + 1) (holder.set (i + 1) g)

/-- Translation of `GlobalDictCodeColumnIterator::_build_to_global_dict`:
if the holder is non-empty the mapping was already built and the call is a
no-op returning OK; otherwise the holder is resized to `dict_size + 2`
zeroes and the code-mapping loop runs (as in the source, the resized holder
is kept even when the loop aborts with an error). -/
def buildToGlobalDict (st : GlobalDictCodeIter) : Status × GlobalDictCodeIter :=
  if st.local_to_global_holder.length > 0 then (Status.ok, st)
  else
    let holder0 := List.replicate (st.dict_values.length + 2) 0
    let r := buildLoop st.global_dict st.dict_values 0 holder0
    (r.1, { st with local_to_global_holder := r.2 })

/-! Scan-scheduling coordinator. The state fields mirror the members
declared in `OlapScanNode` (olap_scan_node.h); the operation bodies are
modelled from the spec, as noted on each definition. -/

/-- Translation of `OlapScanNode::kMaxConcurrency`. -/
def kMaxConcurrency : Nat := 50

/-- Translation of the default initializer of
`OlapScanNode::_chunks_per_scanner`. -/
def defaultChunksPerScanner : Nat := 10

/-- State of one `OlapScanNode` instance, with the scheduling-relevant
members declared in olap_scan_node.h: the latched status, the chunk pool,
the pending-scanner stack, the counters, the configuration fields, the
start flag and the registered scan ranges.  Each instance owns its own
`running_threads` counter, as in the header. -/
structure OlapScanNodeState where
  status : Status
  chunk_pool : Stack Chunk
  pending_scanners : Stack Scanner
  running_threads : Nat
  scanner_submit_count : Nat
  num_scanners : Nat
  chunks_per_scanner : Nat
  start : Bool
  scan_ranges : List ScanRange
deriving DecidableEq

/-- Modelled from the spec: `_update_status` latches the first non-OK
status — the incoming status is stored only while the stored one is still
OK (first-error-wins). -/
def updateStatus (cur incoming : Status) : Status :=
  if cur.isOk then incoming else cur

/-- Modelled from the spec: the admission algorithm behind
`_submit_scanner`.  The latched status is consulted first — once non-OK no
new work is admitted.  Then: if no chunk is available, park the scanner on
`_pending_scanners` and return; if a chunk is available and the node's
running-worker count is below `kMaxConcurrency`, consume the chunk and
submit (incrementing `_running_threads` and `_scanner_submit_count`);
otherwise requeue the scanner as pending. -/
def submitScanner (st : OlapScanNodeState) (s : Scanner) : OlapScanNodeState :=
  if st.status.isOk = false then st
  else
    match st.chunk_pool.pop with
    | none => { st with pending_scanners := st.pending_scanners.push s }
    | some (_, pool2) =>
      if st.running_threads < kMaxConcurrency then
        { st with
          chunk_pool := pool2
          running_threads := st.running_threads + 1
          scanner_submit_count := st.scanner_submit_count + 1 }
      else { st with pending_scanners := st.pending_scanners.push s }

/-- Modelled from the spec: releasing a chunk back to `_chunk_pool` stores
it only while the pool is below its capacity of
`_num_scanners * _chunks_per_scanner`; at capacity the chunk is dropped. -/
def releaseChunk (st : OlapScanNodeState) (c : Chunk) : OlapScanNodeState :=
  if st.chunk_pool.size < st.num_scanners * st.chunks_per_scanner then
    { st with chunk_pool := st.chunk_pool.push c }
  else st

/-- Modelled from the spec: when the consumer returns a chunk, release it
to the pool, then pop at most one pending scanner and re-run the admission
algorithm for it. -/
def returnChunk (st : OlapScanNodeState) (c : Chunk) : OlapScanNodeState :=
  match (releaseChunk st c).pending_scanners.pop with
  | none => releaseChunk st c
  | some (s, pend2) => submitScanner { releaseChunk st c with pending_scanners := pend2 } s

/-- Modelled from the spec: `set_scan_ranges` fails and changes nothing
once scanning has begun (the `_start` flag is set); before that it stores
the ranges. -/
def setScanRanges (st : OlapScanNodeState) (ranges : List ScanRange) :
    Status × OlapScanNodeState :=
  if st.start then (Status.error "scan ranges must be set before scan start", st)
  else (Status.ok, { st with scan_ranges := ranges })

/-- One observable scheduling event on a scan node: a scanner asks to run,
a running worker finishes its unit, the consumer returns a chunk, or an
error is reported to `_update_status`. -/
inductive SchedOp where
  | submit (s : Scanner)
  | finish
  | giveBack (c : Chunk)
  | report (st : Status)
deriving DecidableEq

/-- Apply one scheduling event to a node state. -/
def schedStep (st : OlapScanNodeState) (op : SchedOp) : OlapScanNodeState :=
  match op with
  | .submit s => submitScanner st s
  | .finish => { st with running_threads := st.running_threads - 1 }
  | .giveBack c => returnChunk st c
  | .report r => { st with status := updateStatus st.status r }

/-- Total number of running scanner workers across a set of scan-node
instances in the process. -/
def processRunningThreads (nodes : List OlapScanNodeState) : Nat :=
  nodes.foldl (fun acc n => acc + n.running_threads) 0

/-- A scan node freshly opened with `n` scanners and a full chunk pool,
status OK and no running workers. -/
def freshNode (n : Nat) : OlapScanNodeState :=
  { status := Status.ok
    chunk_pool := ⟨List.replicate (n * defaultChunksPerScanner) 0⟩
    pending_scanners := ⟨[]⟩
    running_threads := 0
    scanner_submit_count := 0
    num_scanners := n
    chunks_per_scanner := defaultChunksPerScanner
    start := true
    scan_ranges := List.range n }

/-! Consumer-facing result stream, modelled from the spec (§4.4 and §7):
`get_next` drains the chunks already pushed to `_result_chunks`, then — when
scanning can make no further progress — reports the latched error exactly
once and is end-of-stream afterwards. -/

/-- Outcome of one consumer-facing `get_next` call. -/
inductive GetNextResult where
  | chunk (c : Chunk)
  | failed (msg : String)
  | eos
deriving DecidableEq

/-- Consumer-facing view of a finished scan: the chunks still in
`_result_chunks`, the latched status, and whether the latched error has
already been returned. -/
structure ConsumerView where
  result_chunks : List Chunk
  latched : Status
  error_returned : Bool
deriving DecidableEq

/-- Modelled from the spec: one consumer `get_next` call.  Chunks pushed to
the result stream before the failure are delivered first (fail-at-the-end);
with the stream drained, a latched error is returned exactly once and the
node is terminal (end-of-stream) afterwards. -/
def getNextModel (st : ConsumerView) : GetNextResult × ConsumerView :=
  match st.result_chunks with
  | c :: rest => (GetNextResult.chunk c, { st with result_chunks := rest })
  | [] =>
    match st.latched with
    | Status.ok => (GetNextResult.eos, st)
    | Status.error m =>
      if st.error_returned then (GetNextResult.eos, st)
      else (GetNextResult.failed m, { st with error_returned := true })

/-- Sequence of results observed by a consumer calling `get_next`
repeatedly (with enough fuel), up to end-of-stream. -/
def consumeTrace : Nat → ConsumerView → List GetNextResult
  | 0, _ => []
  | fuel + 1, st =>
    match getNextModel st with
    | (GetNextResult.eos, _) => []
    | (r, st2) => r :: consumeTrace fuel st2

/-- Predicate of C10, written from the loop's error condition: some decoded
local dictionary value of non-zero length is absent from the global
dictionary. -/
def hasMissingDictValue (st : GlobalDictCodeIter) : Bool :=
  st.dict_values.any (fun s => decide (s.length > 0) && (List.lookup s st.global_dict).isNone)

/-- An iterator whose local-to-global mapping has already been built. -/
def builtIter : GlobalDictCodeIter :=
  { local_to_global_holder := [0, 3, 0]
    global_dict := [("a", 3)]
    dict_values := ["a"] }

/-- An iterator whose mapping is not built yet and whose local dictionary
holds a non-empty value absent from the global dictionary. -/
def emptyIter : GlobalDictCodeIter :=
  { local_to_global_holder := []
    global_dict := [("a", 3)]
    dict_values := ["a", "zz"] }

/-- A node whose status has been latched to an error. -/
def failedNode : OlapScanNodeState :=
  { freshNode 3 with status := Status.error "io error" }

/-- A node with an exhausted chunk pool and one parked scanner. -/
def drainedNode : OlapScanNodeState :=
  { freshNode 2 with chunk_pool := ⟨[]⟩, pending_scanners := ⟨[5]⟩ }

/-- C5: ChunkPool and PendingScannerQueue obey LIFO stack discipline:
pushing `v` onto `s` and then popping returns `v` and leaves the stack
equal to `s`; pop removes the most recently pushed remaining element. -/
theorem C5_stack_lifo {T : Type} (s : Stack T) (v : T) :
    (s.push v).pop = some (v, s) := by
  unfold Stack.push Stack.pop
  simp

end Starrocks

namespace Starrocks

theorem batchMin_le (v : Int) (vs : List Int) : ∀ x ∈ v :: vs, batchMin v vs ≤ x := by
  induction vs generalizing v with
  | nil =>
    intro x hx
    simp only [List.mem_singleton] at hx
    simp [batchMin, hx]
  | cons w ws ih =>
    intro x hx
    have hstep : batchMin v (w :: ws) = batchMin (min v w) ws := rfl
    have hmin : batchMin (min v w) ws ≤ min v w := ih (min v w) (min v w) (List.mem_cons_self _ _)
    rw [hstep]
    rcases List.mem_cons.mp hx with h | hx2
    · subst h
      exact le_trans hmin (min_le_left _ _)
    · rcases List.mem_cons.mp hx2 with h | hx3
      · subst h
        exact le_trans hmin (min_le_right _ _)
      · exact ih (min v w) x (List.mem_cons_of_mem _ hx3)

theorem le_batchMax (v : Int) (vs : List Int) : ∀ x ∈ v :: vs, x ≤ batchMax v vs := by
  induction vs generalizing v with
  | nil =>
    intro x hx
    simp only [List.mem_singleton] at hx
    simp [batchMax, hx]
  | cons w ws ih =>
    intro x hx
    have hstep : batchMax v (w :: ws) = batchMax (max v w) ws := rfl
    have hmax : max v w ≤ batchMax (max v w) ws := ih (max v w) (max v w) (List.mem_cons_self _ _)
    rw [hstep]
    rcases List.mem_cons.mp hx with h | hx2
    · subst h
      exact le_trans (le_max_left _ _) hmax
    · rcases List.mem_cons.mp hx2 with h | hx3
      · subst h
        exact le_trans (le_max_right _ _) hmax
      · exact ih (max v w) x (List.mem_cons_of_mem _ hx3)

theorem addValues_min_le (zm : ZoneMap) (vals : List Int) :
    (addValuesImpl zm vals).min_value ≤ zm.min_value := by
  cases vals with
  | nil => simp [addValuesImpl]
  | cons v vs =>
    simp only [addValuesImpl]
    split <;> omega

theorem addValues_le_max (zm : ZoneMap) (vals : List Int) :
    zm.max_value ≤ (addValuesImpl zm vals).max_value := by
  cases vals with
  | nil => simp [addValuesImpl]
  | cons v vs =>
    simp only [addValuesImpl]
    split <;> omega

theorem addValues_mem_bounds (zm : ZoneMap) (v : Int) (vs : List Int) :
    ∀ x ∈ v :: vs,
      (addValuesImpl zm (v :: vs)).min_value ≤ x ∧ x ≤ (addValuesImpl zm (v :: vs)).max_value := by
  intro x hx
  have h1 : batchMin v vs ≤ x := batchMin_le v vs x hx
  have h2 : x ≤ batchMax v vs := le_batchMax v vs x hx
  constructor
  · simp only [addValuesImpl]
    split <;> omega
  · simp only [addValuesImpl]
    split <;> omega

theorem zminv_step (w : ZoneMapWriter) (acc : List Int × List Int) (op : ZMOp)
    (h : ZMInv w acc) : ZMInv (applyZMOp w op) (collectStep acc op) := by
  obtain ⟨hpage, hseg⟩ := h
  cases op with
  | addValues vals =>
    refine ⟨?_, ?_⟩
    · intro x hx
      simp only [collectStep, List.mem_append] at hx
      simp only [applyZMOp]
      rcases hx with hx | hx
      · have hb := hpage x hx
        have hlo := addValues_min_le w.page_zone_map vals
        have hhi := addValues_le_max w.page_zone_map vals
        exact ⟨le_trans hlo hb.1, le_trans hb.2 hhi⟩
      · cases vals with
        | nil => cases hx
        | cons v vs => exact addValues_mem_bounds w.page_zone_map v vs x hx
    · intro x hx
      simp only [collectStep] at hx
      exact hseg x hx
  | addNulls count =>
    refine ⟨?_, ?_⟩
    · intro x hx
      simp only [collectStep] at hx
      have hb := hpage x hx
      simp only [applyZMOp, addNullsImpl]
      exact hb
    · intro x hx
      simp only [collectStep] at hx
      exact hseg x hx
  | flush =>
    refine ⟨?_, ?_⟩
    · intro x hx
      simp only [collectStep] at hx
      cases hx
    · intro x hx
      simp only [collectStep, List.mem_append] at hx
      simp only [applyZMOp, flushImpl]
      rcases hx with hx | hx
      · have hb := hseg x hx
        constructor
        · have : (if w.segment_zone_map.min_value > w.page_zone_map.min_value
              then w.page_zone_map.min_value else w.segment_zone_map.min_value)
              ≤ w.segment_zone_map.min_value := by
            split <;> omega
          exact le_trans this hb.1
        · have : w.segment_zone_map.max_value
              ≤ (if w.segment_zone_map.max_value < w.page_zone_map.max_value
                 then w.page_zone_map.max_value else w.segment_zone_map.max_value) := by
            split <;> omega
          exact le_trans hb.2 this
      · have hb := hpage x hx
        constructor
        · have : (if w.segment_zone_map.min_value > w.page_zone_map.min_value
              then w.page_zone_map.min_value else w.segment_zone_map.min_value)
              ≤ w.page_zone_map.min_value := by
            split <;> omega
          exact le_trans this hb.1
        · have : w.page_zone_map.max_value
              ≤ (if w.segment_zone_map.max_value < w.page_zone_map.max_value
                 then w.page_zone_map.max_value else w.segment_zone_map.max_value) := by
            split <;> omega
          exact le_trans hb.2 this

theorem zminv_fold (ops : List ZMOp) (w : ZoneMapWriter) (acc : List Int × List Int)
    (h : ZMInv w acc) :
    ZMInv (ops.foldl applyZMOp w) (ops.foldl collectStep acc) := by
  induction ops generalizing w acc with
  | nil => exact h
  | cons op rest ih => exact ih (applyZMOp w op) (collectStep acc op) (zminv_step w acc op h)

end Starrocks

namespace Starrocks

/-- C8: for every call `ZoneMapIndexWriterImpl::add_values(values, count)`
with `count > 0` (witnessed by a member `x` of the batch), afterwards the
page zone map satisfies `min_value ≤ x ≤ max_value` for every value `x` of
the batch and `has_not_null` is true; a call with `count = 0` leaves the
page zone map unchanged. -/
theorem C8_add_values_bounds (zm : ZoneMap) (vals : List Int) (x : Int)
    (hx : x ∈ vals) :
    (addValuesImpl zm vals).has_not_null = true
    ∧ (addValuesImpl zm vals).min_value ≤ x
    ∧ x ≤ (addValuesImpl zm vals).max_value
    ∧ addValuesImpl zm [] = zm := by
  cases vals with
  | nil => cases hx
  | cons v vs =>
    have hb := addValues_mem_bounds zm v vs x hx
    exact ⟨rfl, hb.1, hb.2, rfl⟩

theorem C8_add_values_bounds_witness :
    (addValuesImpl (resetZoneMap ⟨0, 100⟩) [5, 2, 9]).has_not_null = true
    ∧ (addValuesImpl (resetZoneMap ⟨0, 100⟩) [5, 2, 9]).min_value ≤ 2
    ∧ (2 : Int) ≤ (addValuesImpl (resetZoneMap ⟨0, 100⟩) [5, 2, 9]).max_value
    ∧ addValuesImpl (resetZoneMap ⟨0, 100⟩) [] = resetZoneMap ⟨0, 100⟩ :=
  C8_add_values_bounds (resetZoneMap ⟨0, 100⟩) [5, 2, 9] 2 (by decide)

/-- C9: every `ZoneMapIndexWriterImpl::flush` folds the page zone map into
the segment zone map — the segment min becomes the smaller of the two mins,
the segment max the larger of the two maxes, the `has_null` / `has_not_null`
flags are OR-ed — and resets the page zone map; and after any sequence of
`add_values` / `add_nulls` / `flush` operations the segment zone map bounds
every value flushed so far. -/
theorem C9_flush_folds_segment (fb : FieldBounds) (ops : List ZMOp)
    (w : ZoneMapWriter) (x : Int) (hx : x ∈ flushedVals ops) :
    (flushImpl w).segment_zone_map.min_value
      = min w.segment_zone_map.min_value w.page_zone_map.min_value
    ∧ (flushImpl w).segment_zone_map.max_value
      = max w.segment_zone_map.max_value w.page_zone_map.max_value
    ∧ (flushImpl w).segment_zone_map.has_null
      = (w.segment_zone_map.has_null || w.page_zone_map.has_null)
    ∧ (flushImpl w).segment_zone_map.has_not_null
      = (w.segment_zone_map.has_not_null || w.page_zone_map.has_not_null)
    ∧ (flushImpl w).page_zone_map = resetZoneMap w.fld
    ∧ (runZMOps fb ops).segment_zone_map.min_value ≤ x
    ∧ x ≤ (runZMOps fb ops).segment_zone_map.max_value := by
  have hinv : ZMInv (initZoneMapWriter fb) ([], []) := by
    constructor
    · intro y hy
      cases hy
    · intro y hy
      cases hy
  have hfold := zminv_fold ops (initZoneMapWriter fb) ([], []) hinv
  have hbound := hfold.2 x hx
  refine ⟨?_, ?_, rfl, rfl, rfl, hbound.1, hbound.2⟩
  · simp only [flushImpl]
    rcases le_or_lt w.segment_zone_map.min_value w.page_zone_map.min_value with h | h
    · rw [min_eq_left h]
      split <;> omega
    · rw [min_eq_right (le_of_lt h)]
      split <;> omega
  · simp only [flushImpl]
    rcases le_or_lt w.segment_zone_map.max_value w.page_zone_map.max_value with h | h
    · rw [max_eq_right h]
      split <;> omega
    · rw [max_eq_left (le_of_lt h)]
      split <;> omega

theorem C9_flush_folds_segment_witness :
    (flushImpl (initZoneMapWriter ⟨0, 100⟩)).segment_zone_map.min_value
      = min (initZoneMapWriter ⟨0, 100⟩).segment_zone_map.min_value
            (initZoneMapWriter ⟨0, 100⟩).page_zone_map.min_value
    ∧ (flushImpl (initZoneMapWriter ⟨0, 100⟩)).segment_zone_map.max_value
      = max (initZoneMapWriter ⟨0, 100⟩).segment_zone_map.max_value
            (initZoneMapWriter ⟨0, 100⟩).page_zone_map.max_value
    ∧ (flushImpl (initZoneMapWriter ⟨0, 100⟩)).segment_zone_map.has_null
      = ((initZoneMapWriter ⟨0, 100⟩).segment_zone_map.has_null
         || (initZoneMapWriter ⟨0, 100⟩).page_zone_map.has_null)
    ∧ (flushImpl (initZoneMapWriter ⟨0, 100⟩)).segment_zone_map.has_not_null
      = ((initZoneMapWriter ⟨0, 100⟩).segment_zone_map.has_not_null
         || (initZoneMapWriter ⟨0, 100⟩).page_zone_map.has_not_null)
    ∧ (flushImpl (initZoneMapWriter ⟨0, 100⟩)).page_zone_map
      = resetZoneMap (initZoneMapWriter ⟨0, 100⟩).fld
    ∧ (runZMOps ⟨0, 100⟩ [ZMOp.addValues [3, 1], ZMOp.flush]).segment_zone_map.min_value ≤ 1
    ∧ (1 : Int) ≤ (runZMOps ⟨0, 100⟩ [ZMOp.addValues [3, 1], ZMOp.flush]).segment_zone_map.max_value :=
  C9_flush_folds_segment ⟨0, 100⟩ [ZMOp.addValues [3, 1], ZMOp.flush]
    (initZoneMapWriter ⟨0, 100⟩) 1 (by decide)

end Starrocks

namespace Starrocks

theorem updateStatus_latched (cur : Status) (h : cur.isOk = false) (updates : List Status) :
    updates.foldl updateStatus cur = cur := by
  induction updates with
  | nil => rfl
  | cons u us ih =>
    have hstep : updateStatus cur u = cur := by
      simp [updateStatus, h]
    simp only [List.foldl, hstep]
    exact ih

theorem submitScanner_of_failed (st : OlapScanNodeState) (s : Scanner)
    (h : st.status.isOk = false) : submitScanner st s = st := by
  simp [submitScanner, h]

/-- C1: the scan status is a single latched first-error-wins value: once the
stored status is non-OK, no sequence of later `_update_status` calls changes
it, and a submission attempt against a node with a non-OK status produces no
new work (the state is unchanged). -/
theorem C1_status_latched (updates : List Status) (st : OlapScanNodeState) (s : Scanner)
    (h : st.status.isOk = false) :
    updates.foldl updateStatus st.status = st.status ∧ submitScanner st s = st :=
  ⟨updateStatus_latched st.status h updates, submitScanner_of_failed st s h⟩

theorem C1_status_latched_witness :
    [Status.ok, Status.error "late"].foldl updateStatus failedNode.status = failedNode.status
    ∧ submitScanner failedNode 7 = failedNode :=
  C1_status_latched [Status.ok, Status.error "late"] failedNode 7 (by decide)

theorem submitScanner_running_le (st : OlapScanNodeState) (s : Scanner)
    (h : st.running_threads ≤ kMaxConcurrency) :
    (submitScanner st s).running_threads ≤ kMaxConcurrency := by
  unfold submitScanner
  split
  · exact h
  · cases hpop : st.chunk_pool.pop with
    | none => exact h
    | some p =>
      obtain ⟨c, pool2⟩ := p
      dsimp only
      rcases Nat.lt_or_ge st.running_threads kMaxConcurrency with hlt | hge
      · rw [if_pos hlt]
        show st.running_threads + 1 ≤ kMaxConcurrency
        omega
      · rw [if_neg (Nat.not_lt.mpr hge)]
        exact h

theorem releaseChunk_running (st : OlapScanNodeState) (c : Chunk) :
    (releaseChunk st c).running_threads = st.running_threads := by
  unfold releaseChunk
  split <;> rfl

theorem returnChunk_running_le (st : OlapScanNodeState) (c : Chunk)
    (h : st.running_threads ≤ kMaxConcurrency) :
    (returnChunk st c).running_threads ≤ kMaxConcurrency := by
  unfold returnChunk
  cases hpop : (releaseChunk st c).pending_scanners.pop with
  | none =>
    rw [releaseChunk_running]
    exact h
  | some p =>
    obtain ⟨s, pend2⟩ := p
    apply submitScanner_running_le
    show (releaseChunk st c).running_threads ≤ kMaxConcurrency
    rw [releaseChunk_running]
    exact h

theorem schedStep_running_le (st : OlapScanNodeState) (op : SchedOp)
    (h : st.running_threads ≤ kMaxConcurrency) :
    (schedStep st op).running_threads ≤ kMaxConcurrency := by
  cases op with
  | submit s => exact submitScanner_running_le st s h
  | finish =>
    show st.running_threads - 1 ≤ kMaxConcurrency
    omega
  | giveBack c => exact returnChunk_running_le st c h
  | report r => exact h

end Starrocks

namespace Starrocks

/-- C2 (amended): the running-worker counter is a per-scan-node-instance
member, so the fixed constant `kMaxConcurrency = 50` bounds the concurrently
executing run-units of each node separately: from any state within the
bound, every sequence of scheduling events keeps the node's running-worker
count at or below `kMaxConcurrency`, a scanner being submitted only while
the count is below it and requeued as pending otherwise. -/
theorem C2_per_node_concurrency_bound (ops : List SchedOp) (st : OlapScanNodeState)
    (h : st.running_threads ≤ kMaxConcurrency) :
    (ops.foldl schedStep st).running_threads ≤ kMaxConcurrency
    ∧ kMaxConcurrency = 50 := by
  refine ⟨?_, rfl⟩
  induction ops generalizing st with
  | nil => exact h
  | cons op rest ih => exact ih (schedStep st op) (schedStep_running_le st op h)

theorem C2_per_node_concurrency_bound_witness :
    ((List.replicate 60 (SchedOp.submit 2)).foldl schedStep (freshNode 6)).running_threads
      ≤ kMaxConcurrency
    ∧ kMaxConcurrency = 50 :=
  C2_per_node_concurrency_bound (List.replicate 60 (SchedOp.submit 2)) (freshNode 6) (by decide)

set_option maxRecDepth 100000

/-- C2 (counterexample): the claimed process-wide ceiling fails with two
concurrently active scan nodes — each node tracks its own
`_running_threads`, so two nodes driven by 50 admissions each reach 100
concurrently running scanner workers, above `kMaxConcurrency = 50`. -/
theorem C2_process_ceiling_counterexample :
    kMaxConcurrency <
      processRunningThreads
        [(List.replicate 50 (SchedOp.submit 1)).foldl schedStep (freshNode 6),
         (List.replicate 50 (SchedOp.submit 1)).foldl schedStep (freshNode 6)] := by
  decide

end Starrocks

namespace Starrocks

theorem Stack.push_size {T : Type} (s : Stack T) (v : T) :
    (s.push v).size = s.size + 1 := by
  simp [Stack.push, Stack.size]

theorem Stack.pop_size {T : Type} (s : Stack T) (v : T) (rest : Stack T)
    (h : s.pop = some (v, rest)) : s.size = rest.size + 1 := by
  unfold Stack.pop at h
  cases hl : s.items.getLast? with
  | none =>
    rw [hl] at h
    cases h
  | some w =>
    rw [hl] at h
    injection h with h2
    injection h2 with hv hrest
    subst hrest
    have hne : s.items ≠ [] := by
      intro he
      rw [he] at hl
      cases hl
    have hpos : 0 < s.items.length := List.length_pos.mpr hne
    simp [Stack.size, List.length_dropLast]
    omega

theorem releaseChunk_pending (st : OlapScanNodeState) (c : Chunk) :
    (releaseChunk st c).pending_scanners = st.pending_scanners := by
  unfold releaseChunk
  split <;> rfl

theorem releaseChunk_status (st : OlapScanNodeState) (c : Chunk) :
    (releaseChunk st c).status = st.status := by
  unfold releaseChunk
  split <;> rfl

theorem submitScanner_pending_ge (st : OlapScanNodeState) (s : Scanner) :
    st.pending_scanners.size ≤ (submitScanner st s).pending_scanners.size := by
  unfold submitScanner
  split
  · exact le_refl _
  · cases hpop : st.chunk_pool.pop with
    | none =>
      show st.pending_scanners.size ≤ (st.pending_scanners.push s).size
      rw [Stack.push_size]
      omega
    | some p =>
      obtain ⟨c, pool2⟩ := p
      dsimp only
      rcases Nat.lt_or_ge st.running_threads kMaxConcurrency with hlt | hge
      · rw [if_pos hlt]
      · rw [if_neg (Nat.not_lt.mpr hge)]
        show st.pending_scanners.size ≤ (st.pending_scanners.push s).size
        rw [Stack.push_size]
        omega

/-- C3: an admission attempt on a node with an empty chunk pool pushes the
scanner onto `_pending_scanners` and returns with no other state change (no
blocking), and every chunk returned by the consumer pops at most one pending
scanner (re-running the admission algorithm for it), so the pending count
drops by at most one. -/
theorem C3_admission_backpressure (st : OlapScanNodeState) (s : Scanner) (c : Chunk)
    (hok : st.status.isOk = true) :
    (st.chunk_pool.pop = none →
      submitScanner st s = { st with pending_scanners := st.pending_scanners.push s })
    ∧ st.pending_scanners.size ≤ (returnChunk st c).pending_scanners.size + 1 := by
  constructor
  · intro hpop
    unfold submitScanner
    rw [hok]
    simp only [Bool.true_eq_false, if_false, hpop]
  · unfold returnChunk
    cases hpop : (releaseChunk st c).pending_scanners.pop with
    | none =>
      rw [releaseChunk_pending]
      omega
    | some p =>
      obtain ⟨s2, pend2⟩ := p
      dsimp only
      have hsz : (releaseChunk st c).pending_scanners.size = pend2.size + 1 :=
        Stack.pop_size _ s2 pend2 hpop
      rw [releaseChunk_pending] at hsz
      have hge := submitScanner_pending_ge { releaseChunk st c with pending_scanners := pend2 } s2
      have hp2 : ({ releaseChunk st c with pending_scanners := pend2 } :
          OlapScanNodeState).pending_scanners.size = pend2.size := rfl
      rw [hp2] at hge
      rw [hsz]
      exact Nat.add_le_add_right hge 1

theorem C3_admission_backpressure_witness :
    submitScanner drainedNode 9
      = { drainedNode with pending_scanners := drainedNode.pending_scanners.push 9 }
    ∧ drainedNode.pending_scanners.size ≤ (returnChunk drainedNode 4).pending_scanners.size + 1 :=
  ⟨(C3_admission_backpressure drainedNode 9 4 (by decide)).1 (by decide),
   (C3_admission_backpressure drainedNode 9 4 (by decide)).2⟩

end Starrocks

namespace Starrocks

theorem submitScanner_pool_le (st : OlapScanNodeState) (s : Scanner) :
    (submitScanner st s).chunk_pool.size ≤ st.chunk_pool.size
    ∧ (submitScanner st s).num_scanners = st.num_scanners
    ∧ (submitScanner st s).chunks_per_scanner = st.chunks_per_scanner := by
  unfold submitScanner
  split
  · exact ⟨le_refl _, rfl, rfl⟩
  · cases hpop : st.chunk_pool.pop with
    | none => exact ⟨le_refl _, rfl, rfl⟩
    | some p =>
      obtain ⟨c, pool2⟩ := p
      dsimp only
      have hsz : st.chunk_pool.size = pool2.size + 1 := Stack.pop_size _ c pool2 hpop
      rcases Nat.lt_or_ge st.running_threads kMaxConcurrency with hlt | hge
      · rw [if_pos hlt]
        refine ⟨?_, rfl, rfl⟩
        show pool2.size ≤ st.chunk_pool.size
        omega
      · rw [if_neg (Nat.not_lt.mpr hge)]
        exact ⟨le_refl _, rfl, rfl⟩

theorem releaseChunk_pool_le (st : OlapScanNodeState) (c : Chunk)
    (h : st.chunk_pool.size ≤ st.num_scanners * st.chunks_per_scanner) :
    (releaseChunk st c).chunk_pool.size ≤ st.num_scanners * st.chunks_per_scanner
    ∧ (releaseChunk st c).num_scanners = st.num_scanners
    ∧ (releaseChunk st c).chunks_per_scanner = st.chunks_per_scanner := by
  unfold releaseChunk
  split
  · next hlt =>
    refine ⟨?_, rfl, rfl⟩
    show (st.chunk_pool.push c).size ≤ _
    rw [Stack.push_size]
    omega
  · exact ⟨h, rfl, rfl⟩

theorem returnChunk_pool_le (st : OlapScanNodeState) (c : Chunk)
    (h : st.chunk_pool.size ≤ st.num_scanners * st.chunks_per_scanner) :
    (returnChunk st c).chunk_pool.size ≤ st.num_scanners * st.chunks_per_scanner
    ∧ (returnChunk st c).num_scanners = st.num_scanners
    ∧ (returnChunk st c).chunks_per_scanner = st.chunks_per_scanner := by
  unfold returnChunk
  obtain ⟨hr1, hr2, hr3⟩ := releaseChunk_pool_le st c h
  cases hpop : (releaseChunk st c).pending_scanners.pop with
  | none => exact ⟨hr1, hr2, hr3⟩
  | some p =>
    obtain ⟨s2, pend2⟩ := p
    dsimp only
    obtain ⟨hs1, hs2, hs3⟩ :=
      submitScanner_pool_le { releaseChunk st c with pending_scanners := pend2 } s2
    exact ⟨le_trans hs1 hr1, hs2.trans hr2, hs3.trans hr3⟩

theorem schedStep_pool_le (st : OlapScanNodeState) (op : SchedOp)
    (h : st.chunk_pool.size ≤ st.num_scanners * st.chunks_per_scanner) :
    (schedStep st op).chunk_pool.size
      ≤ (schedStep st op).num_scanners * (schedStep st op).chunks_per_scanner := by
  cases op with
  | submit s =>
    obtain ⟨h1, h2, h3⟩ := submitScanner_pool_le st s
    show (submitScanner st s).chunk_pool.size
      ≤ (submitScanner st s).num_scanners * (submitScanner st s).chunks_per_scanner
    rw [h2, h3]
    exact le_trans h1 h
  | finish => exact h
  | giveBack c =>
    obtain ⟨h1, h2, h3⟩ := returnChunk_pool_le st c h
    show (returnChunk st c).chunk_pool.size
      ≤ (returnChunk st c).num_scanners * (returnChunk st c).chunks_per_scanner
    rw [h2, h3]
    exact h1
  | report r => exact h

theorem schedFold_pool_le (ops : List SchedOp) (st : OlapScanNodeState)
    (h : st.chunk_pool.size ≤ st.num_scanners * st.chunks_per_scanner) :
    (ops.foldl schedStep st).chunk_pool.size
      ≤ (ops.foldl schedStep st).num_scanners * (ops.foldl schedStep st).chunks_per_scanner := by
  induction ops generalizing st with
  | nil => exact h
  | cons op rest ih => exact ih (schedStep st op) (schedStep_pool_le st op h)

/-- C4: the chunk pool never holds more than
`num_scanners * chunks_per_scanner` chunks (default `chunks_per_scanner` is
10): starting from a pool seeded to capacity, every sequence of scheduling
events keeps the pool at or below capacity, and releasing a chunk with the
pool at capacity drops the chunk, leaving the state unchanged. -/
theorem C4_chunk_pool_capacity (ops : List SchedOp) (st : OlapScanNodeState) (c : Chunk)
    (hfull : st.chunk_pool.size = st.num_scanners * st.chunks_per_scanner) :
    (ops.foldl schedStep st).chunk_pool.size
      ≤ (ops.foldl schedStep st).num_scanners * (ops.foldl schedStep st).chunks_per_scanner
    ∧ releaseChunk st c = st
    ∧ defaultChunksPerScanner = 10 := by
  refine ⟨schedFold_pool_le ops st (le_of_eq hfull), ?_, rfl⟩
  unfold releaseChunk
  rw [if_neg (by omega : ¬ st.chunk_pool.size < st.num_scanners * st.chunks_per_scanner)]

theorem C4_chunk_pool_capacity_witness :
    (([SchedOp.giveBack 3, SchedOp.submit 1]).foldl schedStep (freshNode 2)).chunk_pool.size
      ≤ (([SchedOp.giveBack 3, SchedOp.submit 1]).foldl schedStep (freshNode 2)).num_scanners
        * (([SchedOp.giveBack 3, SchedOp.submit 1]).foldl schedStep (freshNode 2)).chunks_per_scanner
    ∧ releaseChunk (freshNode 2) 3 = freshNode 2
    ∧ defaultChunksPerScanner = 10 :=
  C4_chunk_pool_capacity [SchedOp.giveBack 3, SchedOp.submit 1] (freshNode 2) 3 (by decide)

end Starrocks

namespace Starrocks

/-- C7: `set_scan_ranges` succeeds only before scanning starts — once the
start flag is set, the call returns a failure status and leaves the node
(and in particular the registered scan ranges) unchanged. -/
theorem C7_set_scan_ranges_after_start (st : OlapScanNodeState) (ranges : List ScanRange)
    (h : st.start = true) :
    (setScanRanges st ranges).1.isOk = false
    ∧ (setScanRanges st ranges).2 = st
    ∧ (setScanRanges st ranges).2.scan_ranges = st.scan_ranges := by
  unfold setScanRanges
  rw [if_pos h]
  exact ⟨rfl, rfl, rfl⟩

theorem C7_set_scan_ranges_after_start_witness :
    (setScanRanges (freshNode 1) [4, 5]).1.isOk = false
    ∧ (setScanRanges (freshNode 1) [4, 5]).2 = freshNode 1
    ∧ (setScanRanges (freshNode 1) [4, 5]).2.scan_ranges = (freshNode 1).scan_ranges :=
  C7_set_scan_ranges_after_start (freshNode 1) [4, 5] (by decide)

theorem consumeTrace_after_error (m : String) (fuel : Nat) :
    consumeTrace fuel
      { result_chunks := [], latched := Status.error m, error_returned := true } = [] := by
  cases fuel with
  | zero => rfl
  | succ k => rfl

end Starrocks

namespace Starrocks

theorem consumeTrace_with_error (chunks : List Chunk) (m : String) (fuel : Nat)
    (h : chunks.length < fuel) :
    consumeTrace fuel
        { result_chunks := chunks, latched := Status.error m, error_returned := false }
      = chunks.map GetNextResult.chunk ++ [GetNextResult.failed m] := by
  induction chunks generalizing fuel with
  | nil =>
    cases fuel with
    | zero => cases h
    | succ k =>
      show GetNextResult.failed m ::
          consumeTrace k
            { result_chunks := [], latched := Status.error m, error_returned := true }
        = [] ++ [GetNextResult.failed m]
      rw [consumeTrace_after_error]
      rfl
  | cons c rest ih =>
    cases fuel with
    | zero => cases h
    | succ k =>
      have hk : rest.length < k := by
        simp only [List.length_cons] at h
        omega
      show GetNextResult.chunk c ::
          consumeTrace k
            { result_chunks := rest, latched := Status.error m, error_returned := false }
        = (GetNextResult.chunk c :: rest.map GetNextResult.chunk)
          ++ [GetNextResult.failed m]
      rw [ih k hk]
      rfl

/-- C6: with an error latched, the consumer-facing `get_next` stream first
delivers every chunk pushed to the result stream before the failure, then
returns the latched error exactly once, and is end-of-stream afterwards: the
full trace is the pre-failure chunks followed by a single error result. -/
theorem C6_error_returned_once (chunks : List Chunk) (m : String) (fuel : Nat)
    (h : chunks.length < fuel) :
    consumeTrace fuel
        { result_chunks := chunks, latched := Status.error m, error_returned := false }
      = chunks.map GetNextResult.chunk ++ [GetNextResult.failed m]
    ∧ (consumeTrace fuel
        { result_chunks := chunks, latched := Status.error m, error_returned := false }).count
          (GetNextResult.failed m) = 1 := by
  have htrace := consumeTrace_with_error chunks m fuel h
  refine ⟨htrace, ?_⟩
  rw [htrace, List.count_append]
  have hz : (chunks.map GetNextResult.chunk).count (GetNextResult.failed m) = 0 := by
    rw [List.count_eq_zero]
    simp
  rw [hz]
  simp [List.count_cons]

theorem C6_error_returned_once_witness :
    consumeTrace 5
        { result_chunks := [1, 2], latched := Status.error "boom", error_returned := false }
      = [1, 2].map GetNextResult.chunk ++ [GetNextResult.failed "boom"]
    ∧ (consumeTrace 5
        { result_chunks := [1, 2], latched := Status.error "boom", error_returned := false }).count
          (GetNextResult.failed "boom") = 1 :=
  C6_error_returned_once [1, 2] "boom" 5 (by decide)

end Starrocks

namespace Starrocks

theorem buildLoop_error_iff (gdict : List (String × Int)) (vs : List String)
    (i : Nat) (holder : List Int) :
    ((buildLoop gdict vs i holder).1.isOk = false
      ↔ vs.any (fun s => decide (s.length > 0) && (List.lookup s gdict).isNone) = true) := by
  induction vs generalizing i holder with
  | nil =>
    simp [buildLoop, Status.isOk]
  | cons s rest ih =>
    show ((match List.lookup s gdict with
      | none =>
        if s.length > 0 then (Status.error "not found slice in global dict", holder)
        else buildLoop gdict rest (i + 1) holder
      | some g => buildLoop gdict rest (i + 1) (holder.set (i + 1) g)).1.isOk = false ↔ _)
    cases hl : List.lookup s gdict with
    | none =>
      by_cases hlen : s.length > 0
      · rw [if_pos hlen]
        simp [Status.isOk, List.any_cons, hlen, hl]
      · rw [if_neg hlen]
        rw [ih (i + 1) holder]
        simp [List.any_cons, hlen, hl]
    | some g =>
      rw [ih (i + 1) (holder.set (i + 1) g)]
      simp [List.any_cons, hl]

/-- C10: `_build_to_global_dict` is idempotent — once the local-to-global
mapping holder is non-empty, a call returns OK and leaves the state
unchanged; and on a first call (empty holder) it returns an error exactly
when some decoded local dictionary value of non-zero length is absent from
the global dictionary. -/
theorem C10_build_to_global_dict (st : GlobalDictCodeIter) :
    (st.local_to_global_holder ≠ [] → buildToGlobalDict st = (Status.ok, st))
    ∧ (st.local_to_global_holder = [] →
        ((buildToGlobalDict st).1.isOk = false ↔ hasMissingDictValue st = true)) := by
  constructor
  · intro h
    unfold buildToGlobalDict
    rw [if_pos (List.length_pos.mpr h)]
  · intro h
    unfold buildToGlobalDict
    rw [if_neg (by simp [h])]
    have := buildLoop_error_iff st.global_dict st.dict_values 0
      (List.replicate (st.dict_values.length + 2) 0)
    simpa [hasMissingDictValue] using this

theorem C10_build_to_global_dict_witness :
    buildToGlobalDict builtIter = (Status.ok, builtIter)
    ∧ ((buildToGlobalDict emptyIter).1.isOk = false ↔ hasMissingDictValue emptyIter = true) :=
  ⟨(C10_build_to_global_dict builtIter).1 (by decide),
   (C10_build_to_global_dict emptyIter).2 (by decide)⟩

end Starrocks
